import Mathlib

/-!
Shallow embedding of the selection-and-lifecycle core of the
`chinese_dictation` repository (files `select_characters.py` and
`app_dictation_chinese.py`), together with theorems settling the frozen
claims about it.

Modelling conventions:
* Python exceptions become `Except PyError`; `random.choice` becomes a
  function of an extra index argument `k` (the draw is nondeterministic,
  so theorems quantify over `k`).
* Python `set[str]` values become `List String` (with `Nodup` hypotheses
  where cardinality matters); set difference becomes `List.filter`.
* Streamlit UI effects `st.balloons()` / `st.snow()` become an explicit
  `Signal` value returned alongside the selected character.
-/

/-- Python runtime errors raised by the embedded code: `ValueError` from
`Status.from_string` and `IndexError` from `random.choice` on an empty
sequence. The constructor `emptyPoolError` is modelled from the spec: it is
the dedicated `EmptyPoolError` the spec's error taxonomy names; no such
error class exists anywhere in the source, and it is included only so that
statements can compare the code's actual error against it. -/
inductive PyError where
  | valueError (msg : String)
  | indexError (msg : String)
  | emptyPoolError
deriving DecidableEq

deriving instance DecidableEq for Except

/-- The UI feedback emitted by `next_character`: `st.balloons()` on near
completion, `st.snow()` on exhaustion, or no call at all (`silent`). -/
inductive Signal where
  | silent
  | balloons
  | snow
deriving DecidableEq

/-- `random.choice(seq)`: picks an element of the list (the index `k` makes
the nondeterministic draw explicit; any element is reachable as `k` varies),
and raises `IndexError` on an empty sequence. -/
def choice (l : List String) (k : Nat) : Except PyError String :=
  if h : l = [] then
    Except.error (PyError.indexError "Cannot choose from an empty sequence")
  else
    Except.ok (l.get ⟨k % l.length, Nat.mod_lt _ (List.length_pos.mpr h)⟩)

namespace SelectChars

/-- `Status` of `select_characters.py`: `UNKNOWN = "❔"`, `MISSING = "🈳"`,
`INCORRECT = "❌"`, `CORRECT = "✅"`. -/
inductive Status where
  | UNKNOWN
  | MISSING
  | INCORRECT
  | CORRECT
deriving DecidableEq

/-- The enum member's value (its display label). -/
def Status.value : Status → String
  | .UNKNOWN => "❔"
  | .MISSING => "🈳"
  | .INCORRECT => "❌"
  | .CORRECT => "✅"

/-- The enum member's Python name. -/
def Status.name : Status → String
  | .UNKNOWN => "UNKNOWN"
  | .MISSING => "MISSING"
  | .INCORRECT => "INCORRECT"
  | .CORRECT => "CORRECT"

/-- Iteration order of the enum (`for status in cls`): definition order. -/
def Status.members : List Status :=
  [Status.UNKNOWN, Status.MISSING, Status.INCORRECT, Status.CORRECT]

/-- `Status.from_string` of `select_characters.py`: `None` maps to
`UNKNOWN`; otherwise the first member whose value equals the string is
returned; any other string raises `ValueError`. -/
def Status.from_string (value : Option String) : Except PyError Status :=
  match value with
  | Option.none => Except.ok Status.UNKNOWN
  | some v =>
    match Status.members.find? (fun s => s.value == v) with
    | some s => Except.ok s
    | Option.none => Except.error (PyError.valueError ("Unknown status " ++ v))

/-- `Status.list_values`. -/
def Status.list_values : List String := Status.members.map Status.value

/-- `Status.get_help`. -/
def Status.get_help : String :=
  String.intercalate ", "
    (Status.members.map (fun s => s.value ++ ": " ++ s.name))

/-- The `Character` dataclass of `select_characters.py` (the fields the
selection core uses: `chars` and `_status`, the latter defaulting to
`Status.UNKNOWN`). -/
structure Character where
  chars : String
  _status : Status := Status.UNKNOWN
deriving DecidableEq

/-- `Character.__eq__`: compares the `chars` fields only. -/
def Character.eq (a b : Character) : Bool := a.chars == b.chars

/-- `undone_chars = char_list - {c.chars for c in characters_done}` inside
`next_character` (list-as-set model of Python set difference). -/
def undoneChars (char_list done : List String) : List String :=
  char_list.filter (fun c => !done.contains c)

/-- The UI signal `next_character` emits: `st.balloons()` when exactly one
character is undone, `st.snow()` when none is, otherwise nothing. -/
def nextSignal (char_list done : List String) : Signal :=
  if (undoneChars char_list done).length = 1 then Signal.balloons
  else if (undoneChars char_list done).length = 0 then Signal.snow
  else Signal.silent

/-- The set `next_character` actually draws from: the undone characters,
except that when they are exhausted the draw falls back to the full
`char_list`. -/
def effectiveChars (char_list done : List String) : List String :=
  if (undoneChars char_list done).length = 0 then char_list
  else undoneChars char_list done

/-- `next_character` of `select_characters.py`: computes the undone
characters, emits the signal, resets to the full pool on exhaustion, draws
one character and wraps it in a `Character` (whose `_status` defaults to
`UNKNOWN`). -/
def next_character (char_list done : List String) (k : Nat) :
    Except PyError (Signal × Character) :=
  match choice (effectiveChars char_list done) k with
  | Except.ok c => Except.ok (nextSignal char_list done, { chars := c })
  | Except.error e => Except.error e

/-- The characters Python's `\s` (and `str.strip()`) treats as whitespace. -/
def isPySpace (c : Char) : Bool :=
  c ∈ ['\t', '\n', '\x0b', '\x0c', '\r', '\x1c', '\x1d', '\x1e', '\x1f',
    ' ', '\u0085', ' ', ' ', ' ', ' ', ' ',
    ' ', ' ', ' ', ' ', ' ', ' ', ' ',
    ' ', ' ', ' ', ' ', ' ', '　']

/-- The comma class `[,，]` of the separator pattern. -/
def isComma (c : Char) : Bool := c == ',' || c == '，'

/-- One match of the separator regex `\s*[,，]\s*|\s+` at the head of the
input, as Python's backtracking engine finds it: the first alternative
matches when the first non-whitespace character is a comma (consuming the
comma and the whitespace around it, greedily); otherwise the second
alternative matches a maximal nonempty whitespace run. Returns the input
after the match, or `none` when no alternative matches here. -/
def matchSep : List Char → Option (List Char)
  | [] => Option.none
  | c :: rest =>
    match (c :: rest).dropWhile isPySpace with
    | d :: r2 =>
      if isComma d then some (r2.dropWhile isPySpace)
      else if isPySpace c then some (d :: r2)
      else Option.none
    | [] => some []

/-- A separator match consumes at least one character. -/
theorem matchSep_length_lt (cs r : List Char) (h : matchSep cs = some r) :
    r.length < cs.length := by
  match cs with
  | [] => simp [matchSep] at h
  | c :: rest =>
    have hdw : ((c :: rest).dropWhile isPySpace).length ≤ (c :: rest).length :=
      (List.dropWhile_sublist _).length_le
    rw [matchSep] at h
    rcases hd : (c :: rest).dropWhile isPySpace with _ | ⟨d, r2⟩ <;> rw [hd] at h
    · cases h
      simp
    · rw [hd] at hdw
      by_cases hcom : isComma d
      · simp only [hcom, if_true, Option.some.injEq] at h
        subst h
        calc (r2.dropWhile isPySpace).length ≤ r2.length :=
              (List.dropWhile_sublist _).length_le
          _ < (d :: r2).length := by simp
          _ ≤ (c :: rest).length := hdw
      · by_cases hsp : isPySpace c
        · simp [hcom, hsp] at h
          subst h
          have : (c :: rest).dropWhile isPySpace = rest.dropWhile isPySpace := by
            rw [List.dropWhile_cons_of_pos hsp]
          rw [this] at hd
          calc (d :: r2).length = (rest.dropWhile isPySpace).length := by rw [hd]
            _ ≤ rest.length := (List.dropWhile_sublist _).length_le
            _ < (c :: rest).length := by simp
        · simp [hcom, hsp] at h

/-- Where no separator matches, the head character is neither whitespace
nor a comma. -/
theorem matchSep_none (c : Char) (rest : List Char)
    (h : matchSep (c :: rest) = Option.none) :
    isPySpace c = false ∧ isComma c = false := by
  rw [matchSep] at h
  by_cases hsp : isPySpace c
  · rcases hd : (c :: rest).dropWhile isPySpace with _ | ⟨d, r2⟩ <;>
      rw [hd] at h <;> simp [hsp] at h
    by_cases hcom : isComma d <;> simp [hcom] at h
  · have hd : (c :: rest).dropWhile isPySpace = c :: rest :=
      List.dropWhile_cons_of_neg hsp
    rw [hd] at h
    by_cases hcom : isComma c
    · simp [hcom] at h
    · exact ⟨by simpa using hsp, by simpa using hcom⟩

/-- `re.split(patt_sep, ·)` as a left-to-right scan: at each position the
separator is tried; on a match the accumulated token is emitted and the
scan resumes after the match, otherwise the head character joins the
current token. `acc` holds the current token reversed. `fuel` only makes
the recursion structural; `splitTokensF_fuel` shows any `fuel` above the
input length gives the same result, so the scan never runs dry. -/
def splitTokensF : Nat → List Char → List Char → List (List Char)
  | 0, _, acc => [acc.reverse]
  | fuel + 1, cs, acc =>
    match matchSep cs with
    | some r => acc.reverse :: splitTokensF fuel r []
    | Option.none =>
      match cs with
      | [] => [acc.reverse]
      | c :: rest => splitTokensF fuel rest (c :: acc)

/-- The fuel is irrelevant as soon as it exceeds the input length: the scan
consumes at least one character per step. -/
theorem splitTokensF_fuel (fuel fuel' : Nat) (cs acc : List Char)
    (h : cs.length < fuel) (h' : cs.length < fuel') :
    splitTokensF fuel cs acc = splitTokensF fuel' cs acc := by
  induction fuel generalizing fuel' cs acc with
  | zero => omega
  | succ n ih =>
    cases fuel' with
    | zero => omega
    | succ m =>
      cases hm : matchSep cs with
      | none =>
        cases cs with
        | nil => simp [splitTokensF, hm]
        | cons c rest =>
          simp only [splitTokensF, hm]
          exact ih m rest (c :: acc) (by simp at h; omega) (by simp at h'; omega)
      | some r =>
        have hlt := matchSep_length_lt cs r hm
        simp only [splitTokensF, hm]
        rw [ih m r [] (by omega) (by omega)]

/-- The token scan with enough fuel to finish. -/
def splitTokens (cs acc : List Char) : List (List Char) :=
  splitTokensF (cs.length + 1) cs acc

/-- Python `str.strip()`: removes leading and trailing whitespace. -/
def pyStrip (s : String) : String :=
  String.mk (((s.toList.dropWhile isPySpace).reverse.dropWhile
    isPySpace).reverse)

/-- `split_characters` of `select_characters.py`: `None` or the empty
string yield `[]`; otherwise the input is split on the separator pattern
and the stripped, nonempty tokens are kept. -/
def split_characters (text : Option String) : List String :=
  match text with
  | Option.none => []
  | some t =>
    if t = "" then []
    else ((splitTokens t.toList []).map
      (fun tok => pyStrip (String.mk tok))).filter (fun s => !(s == ""))

end SelectChars

namespace AppDict

/-- `Status` of `app_dictation_chinese.py`: `UNKNOWN = "❔"`,
`UNANSWERED = "🈳"`, `INCORRECT = "❌"`, `CORRECT = "✅"`. -/
inductive Status where
  | UNKNOWN
  | UNANSWERED
  | INCORRECT
  | CORRECT
deriving DecidableEq

/-- The enum member's value (its display label). -/
def Status.value : Status → String
  | .UNKNOWN => "❔"
  | .UNANSWERED => "🈳"
  | .INCORRECT => "❌"
  | .CORRECT => "✅"

/-- The enum member's Python name. -/
def Status.name : Status → String
  | .UNKNOWN => "UNKNOWN"
  | .UNANSWERED => "UNANSWERED"
  | .INCORRECT => "INCORRECT"
  | .CORRECT => "CORRECT"

/-- Iteration order of the enum: definition order. -/
def Status.members : List Status :=
  [Status.UNKNOWN, Status.UNANSWERED, Status.INCORRECT, Status.CORRECT]

/-- `Status.from_string` of `app_dictation_chinese.py`: an explicit chain of
label comparisons, with `None` (and only `None` besides `"❔"`) mapping to
`UNKNOWN`, and a `ValueError` for every other string. -/
def Status.from_string (value : Option String) : Except PyError Status :=
  if value == some "❔" || value == Option.none then Except.ok Status.UNKNOWN
  else if value == some "🈳" then Except.ok Status.UNANSWERED
  else if value == some "❌" then Except.ok Status.INCORRECT
  else if value == some "✅" then Except.ok Status.CORRECT
  else Except.error
    (PyError.valueError ("Unknown status " ++ value.getD ""))

/-- `Status.list_values`. -/
def Status.list_values : List String := Status.members.map Status.value

/-- `Status.get_help`. -/
def Status.get_help : String :=
  String.intercalate ", "
    (Status.members.map (fun s => s.value ++ ": " ++ s.name))

/-- The `Word` dataclass of `app_dictation_chinese.py`: `characters` and an
optional `status` defaulting to `None`. -/
structure Word where
  characters : String
  status : Option Status := Option.none
deriving DecidableEq

/-- `Word`'s equality as Python defines it: `Word` declares no custom
`__eq__`, so the `@dataclass` decorator generates one comparing the tuple
of ALL fields — `characters` and `status`. -/
def Word.eq (a b : Word) : Bool :=
  a.characters == b.characters && a.status == b.status

/-- `select_character` of `app_dictation_chinese.py`: draws uniformly from
the full list (no notion of seen characters) and wraps the result in a
`Word` whose `status` defaults to `None`. -/
def select_character (char_list : List String) (k : Nat) :
    Except PyError Word :=
  match choice char_list k with
  | Except.ok c => Except.ok { characters := c }
  | Except.error e => Except.error e

/-- `record_characters` of `app_dictation_chinese.py`: starts the history
with `[w]` when it is empty; otherwise appends `w` unless the last
element's `characters` equals `w.characters`. -/
def record_characters (done : List Word) (w : Word) : List Word :=
  match done.getLast? with
  | Option.none => [w]
  | some last =>
    if w.characters != last.characters then done ++ [w] else done

end AppDict

/-! ## Theorems settling the claims -/

/-- An `ok` result of `choice` is an element of the list drawn from. -/
theorem choice_ok_mem (l : List String) (k : Nat) (c : String)
    (h : choice l k = Except.ok c) : c ∈ l := by
  unfold choice at h
  split at h
  · cases h
  · injection h with h
    exact h ▸ List.get_mem l _ _

/-- On a nonempty list, `choice` succeeds. -/
theorem choice_ok_of_ne_nil (l : List String) (k : Nat) (h : l ≠ []) :
    ∃ c, choice l k = Except.ok c := by
  unfold choice
  rw [dif_neg h]
  exact ⟨_, rfl⟩

/-- C3 counterexample: parsing the empty string does not yield `UNKNOWN` in
either variant — both `from_string` implementations raise `ValueError` on
`""` (only `None` and `"❔"` map to `UNKNOWN`). -/
theorem c3_parse_empty_counterexample :
    AppDict.Status.from_string (some "") ≠ Except.ok AppDict.Status.UNKNOWN ∧
    AppDict.Status.from_string (some "") =
      Except.error (PyError.valueError "Unknown status ") ∧
    SelectChars.Status.from_string (some "") ≠
      Except.ok SelectChars.Status.UNKNOWN ∧
    SelectChars.Status.from_string (some "") =
      Except.error (PyError.valueError "Unknown status ") := by
  refine ⟨by decide, rfl, by decide, rfl⟩

/-- C3 (amended): status parsing maps `None` to `UNKNOWN`, maps each of the
four canonical display labels to its status, and raises the unknown-status
`ValueError` on every other string — including the empty string, which is
not special-cased. Both variants agree (with `MISSING` in place of
`UNANSWERED` in `select_characters.py`). -/
theorem c3_status_parse_totality :
    AppDict.Status.from_string Option.none = Except.ok AppDict.Status.UNKNOWN ∧
    (∀ s : AppDict.Status,
      AppDict.Status.from_string (some s.value) = Except.ok s) ∧
    (∀ v : String, v ∉ AppDict.Status.list_values →
      AppDict.Status.from_string (some v) =
        Except.error (PyError.valueError ("Unknown status " ++ v))) ∧
    SelectChars.Status.from_string Option.none =
      Except.ok SelectChars.Status.UNKNOWN ∧
    (∀ s : SelectChars.Status,
      SelectChars.Status.from_string (some s.value) = Except.ok s) ∧
    (∀ v : String, v ∉ SelectChars.Status.list_values →
      SelectChars.Status.from_string (some v) =
        Except.error (PyError.valueError ("Unknown status " ++ v))) := by
  refine ⟨rfl, ?_, ?_, rfl, ?_, ?_⟩
  · intro s; cases s <;> rfl
  · intro v hv
    simp [AppDict.Status.list_values, AppDict.Status.members,
      AppDict.Status.value] at hv
    obtain ⟨h1, h2, h3, h4⟩ := hv
    simp [AppDict.Status.from_string, h1, h2, h3, h4]
  · intro s; cases s <;> rfl
  · intro v hv
    simp [SelectChars.Status.list_values, SelectChars.Status.members,
      SelectChars.Status.value] at hv
    obtain ⟨h1, h2, h3, h4⟩ := hv
    have e1 : ("❔" == v) = false := beq_eq_false_iff_ne.mpr (fun hh => h1 hh.symm)
    have e2 : ("🈳" == v) = false := beq_eq_false_iff_ne.mpr (fun hh => h2 hh.symm)
    have e3 : ("❌" == v) = false := beq_eq_false_iff_ne.mpr (fun hh => h3 hh.symm)
    have e4 : ("✅" == v) = false := beq_eq_false_iff_ne.mpr (fun hh => h4 hh.symm)
    simp [SelectChars.Status.from_string, SelectChars.Status.members,
      List.find?, SelectChars.Status.value, e1, e2, e3, e4]

/-- C3 witness: a label matching no status ("xyz") is rejected with the
unknown-status error by both variants. -/
theorem c3_status_parse_totality_witness :
    AppDict.Status.from_string (some "xyz") =
      Except.error (PyError.valueError "Unknown status xyz") ∧
    SelectChars.Status.from_string (some "xyz") =
      Except.error (PyError.valueError "Unknown status xyz") :=
  ⟨c3_status_parse_totality.2.2.1 "xyz" (by decide),
   c3_status_parse_totality.2.2.2.2.2 "xyz" (by decide)⟩

/-- C4 counterexample: on an empty pool the selection raises the generic
`IndexError` that `random.choice` produces for any empty sequence (after
having already emitted the exhaustion signal), not a dedicated
`EmptyPoolError` — no such dedicated error class exists in the code. -/
theorem c4_empty_pool_counterexample :
    SelectChars.next_character [] [] 0 =
      Except.error (PyError.indexError "Cannot choose from an empty sequence") ∧
    SelectChars.next_character [] [] 0 ≠
      Except.error PyError.emptyPoolError ∧
    AppDict.select_character [] 0 =
      Except.error (PyError.indexError "Cannot choose from an empty sequence") ∧
    AppDict.select_character [] 0 ≠ Except.error PyError.emptyPoolError := by
  refine ⟨rfl, by decide, rfl, by decide⟩

/-- C4 (amended): when selection is attempted over an empty pool, both
selection operations fail — with the generic `IndexError` raised by
`random.choice` on an empty sequence rather than a dedicated error type —
and the error propagates, so the calling flow halts. -/
theorem c4_empty_pool_error (seen : List String) (k k' : Nat) :
    SelectChars.next_character [] seen k =
      Except.error (PyError.indexError "Cannot choose from an empty sequence") ∧
    AppDict.select_character [] k' =
      Except.error (PyError.indexError "Cannot choose from an empty sequence") := by
  constructor
  · simp [SelectChars.next_character, SelectChars.effectiveChars,
      SelectChars.undoneChars, choice]
  · simp [AppDict.select_character, choice]

/-- C5: `record_characters` appends the item unless the history is
nonempty and its last element's text equals the item's text; recording the
texts 好, 好, 学 stores 好, 学 (the immediately repeated 好 is collapsed,
even when its grading status differs), while 好, 学, 好 stores all three
(the non-adjacent repeat is retained). -/
theorem c5_record_characters :
    (∀ w : AppDict.Word, AppDict.record_characters [] w = [w]) ∧
    (∀ (done : List AppDict.Word) (last w : AppDict.Word),
      AppDict.record_characters (done ++ [last]) w =
        if w.characters = last.characters then done ++ [last]
        else done ++ [last] ++ [w]) ∧
    (AppDict.record_characters (AppDict.record_characters
        (AppDict.record_characters [] ⟨"好", Option.none⟩)
        ⟨"好", some AppDict.Status.CORRECT⟩)
        ⟨"学", Option.none⟩).map AppDict.Word.characters = ["好", "学"] ∧
    (AppDict.record_characters (AppDict.record_characters
        (AppDict.record_characters [] ⟨"好", Option.none⟩)
        ⟨"学", Option.none⟩)
        ⟨"好", Option.none⟩).map AppDict.Word.characters = ["好", "学", "好"] := by
  refine ⟨fun w => rfl, ?_, by decide, by decide⟩
  intro done last w
  by_cases h : w.characters = last.characters <;>
    simp [AppDict.record_characters, List.getLast?_concat, h, List.append_assoc]

/-- C6 counterexample: in `select_characters.py` the member carrying the
🈳 label is named `MISSING`, not `UNANSWERED`, so the enumeration's member
names are not UNKNOWN, UNANSWERED, INCORRECT, CORRECT there. -/
theorem c6_status_names_counterexample :
    SelectChars.Status.members.map SelectChars.Status.name ≠
      ["UNKNOWN", "UNANSWERED", "INCORRECT", "CORRECT"] ∧
    SelectChars.Status.name SelectChars.Status.MISSING = "MISSING" := by
  refine ⟨by decide, rfl⟩

/-- C6 (amended): both `Status` enumerations are closed with exactly the
four listed members and the fixed labels ❔, 🈳, ❌, ✅ in definition
order; in `app_dictation_chinese.py` the member names are UNKNOWN,
UNANSWERED, INCORRECT, CORRECT, while `select_characters.py` names the
🈳 member `MISSING`. -/
theorem c6_status_enumeration :
    AppDict.Status.members.map AppDict.Status.name =
      ["UNKNOWN", "UNANSWERED", "INCORRECT", "CORRECT"] ∧
    AppDict.Status.members.map AppDict.Status.value = ["❔", "🈳", "❌", "✅"] ∧
    SelectChars.Status.members.map SelectChars.Status.name =
      ["UNKNOWN", "MISSING", "INCORRECT", "CORRECT"] ∧
    SelectChars.Status.members.map SelectChars.Status.value =
      ["❔", "🈳", "❌", "✅"] ∧
    (∀ s : AppDict.Status, s ∈ AppDict.Status.members) ∧
    (∀ s : SelectChars.Status, s ∈ SelectChars.Status.members) ∧
    AppDict.Status.get_help = "❔: UNKNOWN, 🈳: UNANSWERED, ❌: INCORRECT, ✅: CORRECT" := by
  refine ⟨rfl, rfl, rfl, rfl, ?_, ?_, rfl⟩
  · intro s; cases s <;> simp [AppDict.Status.members]
  · intro s; cases s <;> simp [SelectChars.Status.members]

/-- C8 counterexample: two `Word`s with equal text but different grading
status are unequal under the dataclass-generated equality of
`app_dictation_chinese.py`, so for `Word` "equal iff texts equal" fails. -/
theorem c8_word_eq_counterexample :
    AppDict.Word.eq ⟨"好", Option.none⟩ ⟨"好", some AppDict.Status.CORRECT⟩ =
      false ∧
    (AppDict.Word.mk "好" Option.none).characters =
      (AppDict.Word.mk "好" (some AppDict.Status.CORRECT)).characters := by
  refine ⟨by decide, rfl⟩

/-- C8 (amended): `Character.__eq__` of `select_characters.py` compares the
texts only (status plays no part), and that is the equality the claim
describes; `Word` of `app_dictation_chinese.py` declares no custom
equality, so its dataclass equality compares text AND status. -/
theorem c8_item_equality :
    (∀ a b : SelectChars.Character,
      SelectChars.Character.eq a b = true ↔ a.chars = b.chars) ∧
    (∀ a b : SelectChars.Character,
      SelectChars.Character.eq ⟨a.chars, a._status⟩ ⟨a.chars, b._status⟩ = true) ∧
    (∀ a b : AppDict.Word,
      AppDict.Word.eq a b = true ↔
        a.characters = b.characters ∧ a.status = b.status) := by
  refine ⟨?_, ?_, ?_⟩
  · intro a b; simp [SelectChars.Character.eq]
  · intro a b; simp [SelectChars.Character.eq]
  · intro a b; simp [AppDict.Word.eq]

/-- C10: parsing is a left inverse of the label mapping in both variants —
`from_string(s.value)` returns `s` for every member `s`, so every label
`list_values` (and hence `get_help`) produces parses back without error. -/
theorem c10_from_string_left_inverse :
    (∀ s : AppDict.Status,
      AppDict.Status.from_string (some s.value) = Except.ok s) ∧
    (∀ s : SelectChars.Status,
      SelectChars.Status.from_string (some s.value) = Except.ok s) ∧
    AppDict.Status.list_values.map
      (fun v => AppDict.Status.from_string (some v)) =
        AppDict.Status.members.map Except.ok ∧
    SelectChars.Status.list_values.map
      (fun v => SelectChars.Status.from_string (some v)) =
        SelectChars.Status.members.map Except.ok := by
  refine ⟨?_, ?_, rfl, rfl⟩
  · intro s; cases s <;> rfl
  · intro s; cases s <;> rfl

/-- The emitted signal is `snow` exactly when no character is undone. -/
theorem nextSignal_eq_snow_iff (pool seen : List String) :
    SelectChars.nextSignal pool seen = Signal.snow ↔
      (SelectChars.undoneChars pool seen).length = 0 := by
  unfold SelectChars.nextSignal
  by_cases h1 : (SelectChars.undoneChars pool seen).length = 1 <;>
    by_cases h0 : (SelectChars.undoneChars pool seen).length = 0 <;>
    simp [h1, h0] <;> omega

/-- C1: for a non-empty pool the selection call succeeds, and the signal it
emits is `balloons` exactly when one character is unseen, `snow` exactly
when none is (in which case the effective candidate set is reset to the
full pool for this draw), and no signal exactly when two or more are
unseen — so exactly one of the three cases holds on every call. -/
theorem c1_next_character_signals (pool seen : List String) (k : Nat)
    (hne : pool ≠ []) (hnd : pool.Nodup) :
    ∃ c : SelectChars.Character,
      SelectChars.next_character pool seen k =
        Except.ok (SelectChars.nextSignal pool seen, c) ∧
      ((SelectChars.undoneChars pool seen).length = 1 ↔
        SelectChars.nextSignal pool seen = Signal.balloons) ∧
      ((SelectChars.undoneChars pool seen).length = 0 ↔
        SelectChars.nextSignal pool seen = Signal.snow) ∧
      ((SelectChars.undoneChars pool seen).length = 0 →
        SelectChars.effectiveChars pool seen = pool) ∧
      (2 ≤ (SelectChars.undoneChars pool seen).length ↔
        SelectChars.nextSignal pool seen = Signal.silent) := by
  have hEff : SelectChars.effectiveChars pool seen ≠ [] := by
    unfold SelectChars.effectiveChars
    by_cases h0 : (SelectChars.undoneChars pool seen).length = 0
    · simpa [h0] using hne
    · simp only [h0, if_false]
      intro hnil
      exact h0 (by rw [hnil]; rfl)
  obtain ⟨c, hc⟩ := choice_ok_of_ne_nil (SelectChars.effectiveChars pool seen) k hEff
  refine ⟨{ chars := c }, ?_, ?_, ?_, ?_, ?_⟩
  · unfold SelectChars.next_character
    rw [hc]
  · unfold SelectChars.nextSignal
    by_cases h1 : (SelectChars.undoneChars pool seen).length = 1 <;>
      by_cases h0 : (SelectChars.undoneChars pool seen).length = 0 <;>
      simp [h1, h0]
  · exact (nextSignal_eq_snow_iff pool seen).symm
  · intro h0
    unfold SelectChars.effectiveChars
    rw [if_pos h0]
  · unfold SelectChars.nextSignal
    by_cases h1 : (SelectChars.undoneChars pool seen).length = 1 <;>
      by_cases h0 : (SelectChars.undoneChars pool seen).length = 0 <;>
      simp [h1, h0] <;> omega

/-- C1 witness: with pool 好, 学 and 好 already seen, the call signals
near-completion (one unseen character) and succeeds. -/
theorem c1_next_character_signals_witness :
    ∃ c : SelectChars.Character,
      SelectChars.next_character ["好", "学"] ["好"] 0 =
        Except.ok (SelectChars.nextSignal ["好", "学"] ["好"], c) ∧
      ((SelectChars.undoneChars ["好", "学"] ["好"]).length = 1 ↔
        SelectChars.nextSignal ["好", "学"] ["好"] = Signal.balloons) ∧
      ((SelectChars.undoneChars ["好", "学"] ["好"]).length = 0 ↔
        SelectChars.nextSignal ["好", "学"] ["好"] = Signal.snow) ∧
      ((SelectChars.undoneChars ["好", "学"] ["好"]).length = 0 →
        SelectChars.effectiveChars ["好", "学"] ["好"] = ["好", "学"]) ∧
      (2 ≤ (SelectChars.undoneChars ["好", "学"] ["好"]).length ↔
        SelectChars.nextSignal ["好", "学"] ["好"] = Signal.silent) :=
  c1_next_character_signals ["好", "学"] ["好"] 0 (by decide) (by decide)

/-- C2: whatever the seen set, a successful selection returns a text drawn
from the pool, and when the exhaustion signal did not fire the text is
moreover not among the seen ones — a text can repeat only after the
exhaustion reset. -/
theorem c2_selection_pool_membership (pool seen : List String) (k : Nat)
    (sig : Signal) (c : SelectChars.Character)
    (h : SelectChars.next_character pool seen k = Except.ok (sig, c)) :
    c.chars ∈ pool ∧ (sig ≠ Signal.snow → c.chars ∉ seen) := by
  unfold SelectChars.next_character at h
  rcases hch : choice (SelectChars.effectiveChars pool seen) k with e | s <;>
    rw [hch] at h
  · cases h
  injection h with h
  injection h with hsig hc
  subst hsig
  have hmem : s ∈ SelectChars.effectiveChars pool seen := choice_ok_mem _ k s hch
  have hc' : c.chars = s := by rw [← hc]
  constructor
  · rw [hc']
    revert hmem
    unfold SelectChars.effectiveChars
    by_cases h0 : (SelectChars.undoneChars pool seen).length = 0
    · rw [if_pos h0]
      exact id
    · rw [if_neg h0]
      intro hmem
      exact List.mem_of_mem_filter hmem
  · intro hsig
    have h0 : (SelectChars.undoneChars pool seen).length ≠ 0 := by
      intro h0
      exact hsig ((nextSignal_eq_snow_iff pool seen).mpr h0)
    have hu : s ∈ SelectChars.undoneChars pool seen := by
      revert hmem
      unfold SelectChars.effectiveChars
      rw [if_neg h0]
      exact id
    rw [hc']
    have := List.of_mem_filter hu
    simpa using this

/-- C2 witness: a concrete non-exhausted draw (pool 好 with nothing seen)
lands in the pool and outside the seen set. -/
theorem c2_selection_pool_membership_witness :
    ("好" : String) ∈ ["好"] ∧
      (Signal.balloons ≠ Signal.snow → ("好" : String) ∉ ([] : List String)) :=
  c2_selection_pool_membership ["好"] [] 0 Signal.balloons
    { chars := "好" } (by rfl)

/-- C9: every `Character` a successful `next_character` call returns is
created with status `UNKNOWN` (the dataclass default), whatever the pool,
the seen set and the draw. -/
theorem c9_selection_status_unknown (pool seen : List String) (k : Nat)
    (sig : Signal) (c : SelectChars.Character)
    (h : SelectChars.next_character pool seen k = Except.ok (sig, c)) :
    c._status = SelectChars.Status.UNKNOWN := by
  unfold SelectChars.next_character at h
  rcases hch : choice (SelectChars.effectiveChars pool seen) k with e | s <;>
    rw [hch] at h
  · cases h
  injection h with h
  injection h with hsig hc
  rw [← hc]

/-- C9 witness: the concrete draw from pool 好 carries status `UNKNOWN`. -/
theorem c9_selection_status_unknown_witness :
    (SelectChars.Character.mk "好" SelectChars.Status.UNKNOWN)._status =
      SelectChars.Status.UNKNOWN :=
  c9_selection_status_unknown ["好"] [] 0 Signal.balloons
    { chars := "好" } (by rfl)

/-- Every character the scan puts into a token sits at a position where no
separator matched, hence is neither whitespace nor a comma. -/
theorem splitTokensF_good (fuel : Nat) (cs acc : List Char)
    (hacc : ∀ c ∈ acc,
      SelectChars.isPySpace c = false ∧ SelectChars.isComma c = false) :
    ∀ tok ∈ SelectChars.splitTokensF fuel cs acc, ∀ c ∈ tok,
      SelectChars.isPySpace c = false ∧ SelectChars.isComma c = false := by
  induction fuel generalizing cs acc with
  | zero =>
    intro tok htok c hc
    simp only [SelectChars.splitTokensF, List.mem_singleton] at htok
    subst htok
    exact hacc c (by simpa using hc)
  | succ n ih =>
    intro tok htok
    cases hm : SelectChars.matchSep cs with
    | some r =>
      simp only [SelectChars.splitTokensF, hm, List.mem_cons] at htok
      rcases htok with htok | htok
      · subst htok
        intro c hc
        exact hacc c (by simpa using hc)
      · exact ih r [] (by simp) tok htok
    | none =>
      cases cs with
      | nil =>
        simp only [SelectChars.splitTokensF, hm, List.mem_singleton] at htok
        subst htok
        intro c hc
        exact hacc c (by simpa using hc)
      | cons c rest =>
        simp only [SelectChars.splitTokensF, hm] at htok
        refine ih rest (c :: acc) ?_ tok htok
        intro d hd
        rcases List.mem_cons.mp hd with rfl | hd
        · exact SelectChars.matchSep_none d rest hm
        · exact hacc d hd

/-- `dropWhile` is the identity on a list none of whose elements satisfy
the predicate. -/
theorem dropWhile_eq_self_of_all (p : Char → Bool) (l : List Char)
    (h : ∀ c ∈ l, p c = false) : l.dropWhile p = l := by
  cases l with
  | nil => rfl
  | cons c rest =>
    exact List.dropWhile_cons_of_neg (by simp [h c (List.mem_cons_self c rest)])

/-- `str.strip()` leaves a whitespace-free token unchanged. -/
theorem pyStrip_eq_self (tok : List Char)
    (h : ∀ c ∈ tok, SelectChars.isPySpace c = false) :
    SelectChars.pyStrip (String.mk tok) = String.mk tok := by
  unfold SelectChars.pyStrip
  have htl : (String.mk tok).toList = tok := rfl
  rw [htl, dropWhile_eq_self_of_all _ tok h,
    dropWhile_eq_self_of_all _ tok.reverse (fun c hc => h c (by simpa using hc)),
    List.reverse_reverse]

/-- C7: splitting 默写, 联系 and 好 separated by a comma-with-space and a
newline yields exactly those three tokens; empty and absent input yield the
empty list; and in general every token the splitter returns is nonempty
and free of whitespace and comma characters (separators are consumed,
empty tokens are discarded). -/
theorem c7_split_characters :
    SelectChars.split_characters (some "默写, 联系\n好") = ["默写", "联系", "好"] ∧
    SelectChars.split_characters (some "") = [] ∧
    SelectChars.split_characters Option.none = [] ∧
    (∀ t : String, ∀ tok ∈ SelectChars.split_characters (some t),
      tok ≠ "" ∧ ∀ c ∈ tok.toList,
        SelectChars.isPySpace c = false ∧ SelectChars.isComma c = false) := by
  refine ⟨by decide, rfl, rfl, ?_⟩
  intro t tok htok
  by_cases ht : t = ""
  · simp [SelectChars.split_characters, ht] at htok
  simp only [SelectChars.split_characters, if_neg ht] at htok
  rw [List.mem_filter] at htok
  obtain ⟨hmem, hpred⟩ := htok
  rw [List.mem_map] at hmem
  obtain ⟨tok0, htok0, heq⟩ := hmem
  have hgood : ∀ c ∈ tok0,
      SelectChars.isPySpace c = false ∧ SelectChars.isComma c = false :=
    splitTokensF_good _ _ [] (by simp) tok0 htok0
  have hid : SelectChars.pyStrip (String.mk tok0) = String.mk tok0 :=
    pyStrip_eq_self tok0 (fun c hc => (hgood c hc).1)
  rw [hid] at heq
  constructor
  · simpa using hpred
  · intro c hc
    rw [← heq] at hc
    exact hgood c (by simpa using hc)

/-- C7 witness: the token 默写 of the concrete split is nonempty and
separator-free. -/
theorem c7_split_characters_witness :
    ("默写" : String) ≠ "" ∧ ∀ c ∈ ("默写" : String).toList,
      SelectChars.isPySpace c = false ∧ SelectChars.isComma c = false :=
  c7_split_characters.2.2.2 "默写, 联系\n好" "默写" (by decide)
